import Mathlib

/-!
Verification development for the lotus resource registry
(include/lotus/lotus.hpp).

The embedding models a single registry of resources.  Resources
(resource_type pointers) are modelled as `Option Nat` (`none` is the
null pointer).  The two user callbacks `rrc` (request) and `ruc`
(unload) are external function pointers; invoking one is modelled as
emitting an observable event.  Mutex lock and unlock operations are
also recorded as events, which makes the locking discipline of each
operation visible in its trace.  The atomic unsigned int handle count
is a `Nat` with arithmetic modulo 2^32.  A handle is either empty
(null `shr` pointer) or names its slot; slot names are unique keys of
the registry map, so the name is a faithful stand-in for the stable
`shared*` pointer.
-/

namespace Lotus

/-- Slot states, from `enum class states` in `resource_handle`. -/
inductive states where
  | loaded
  | unloaded
  | waiting_load
deriving DecidableEq, Repr

/-- The per-name shared control block, from `struct shared`.  The
`registry` back pointer of the source is implicit because the
development models a single registry. -/
structure shared where
  state : states
  count : Nat
  object : Option Nat
deriving DecidableEq, Repr

/-- The registry, from `struct resource_registry`.  The field `reg`
is the `std::unordered_map` from names to slots, modelled as an
association list with unique keys.  The callback members `rrc` and
`ruc` are external; their invocations are traced as events. -/
structure resource_registry where
  reg : List (String × shared)
deriving DecidableEq, Repr

/-- Observable events of an operation, in program order: mutex
operations (each construction and each destructor run of a
`lock_guard`) and callback invocations.  `unloadCall` records the
name of the slot whose unload path fired together with the object
pointer passed to `ruc`; `requestCall` records the name passed to
`rrc`. -/
inductive Event where
  | lockMutex
  | unlockMutex
  | requestCall (name : String)
  | unloadCall (name : String) (object : Option Nat)
deriving DecidableEq, Repr

/-- A handle (`resource_handle`) is empty (`shr == nullptr`) or
references one slot by its name. -/
abbrev resource_handle := Option String

/-- Lookup of a name in the slot list (`reg.find(name)`). -/
def lookupSlotList : List (String × shared) → String → Option shared
  | [], _ => none
  | p :: rest, n => if p.1 = n then some p.2 else lookupSlotList rest n

/-- Lookup of a name in the registry map. -/
def lookupSlot (r : resource_registry) (n : String) : Option shared :=
  lookupSlotList r.reg n

/-- Replacement of the slot stored under a name (writing through the
stable `shared*` held in the map). -/
def setSlotList : List (String × shared) → String → shared → List (String × shared)
  | [], _, _ => []
  | p :: rest, n, s => if p.1 = n then (p.1, s) :: rest else p :: setSlotList rest n s

/-- Replacement of the slot stored under a name, registry level. -/
def setSlot (r : resource_registry) (n : String) (s : shared) : resource_registry :=
  ⟨setSlotList r.reg n s⟩

/-- From `resource_registry::find_or_create_shared`: look the name up
and, when absent, insert a fresh slot with `state = unloaded`,
`count = 0`, `object = nullptr`.  Called under the mutex. -/
def find_or_create_shared (r : resource_registry) (n : String) : resource_registry :=
  match lookupSlot r n with
  | some _ => r
  | none => ⟨r.reg ++ [(n, ⟨states.unloaded, 0, none⟩)]⟩

/-- From `lotus::get`.  Returns the handle, the updated registry and
the event trace.  The trace records, in program order: the
`lock_guard` construction, its explicit destructor call
(`lock.~lock_guard()`), the conditional request callback, and the
second destructor run of the same guard at scope exit.  The handle
construction increments the slot count (fetch_add, modulo 2^32). -/
def get (n : String) (r : resource_registry) :
    resource_handle × resource_registry × List Event :=
  let r1 := find_or_create_shared r n
  let s := (lookupSlot r1 n).getD ⟨states.unloaded, 0, none⟩
  let reqEvents := if s.state = states.unloaded then [Event.requestCall n] else []
  let r2 := setSlot r1 n { s with count := (s.count + 1) % 4294967296 }
  (some n, r2, Event.lockMutex :: Event.unlockMutex :: reqEvents ++ [Event.unlockMutex])

/-- From `lotus::reg`.  Find-or-create the slot, then install the
object and store `state = loaded`.  The trace records the lock, the
explicit destructor call of the guard, and the second destructor run
at scope exit. -/
def reg (n : String) (o : Nat) (r : resource_registry) :
    resource_registry × List Event :=
  let r1 := find_or_create_shared r n
  let s := (lookupSlot r1 n).getD ⟨states.unloaded, 0, none⟩
  let r2 := setSlot r1 n { s with object := some o, state := states.loaded }
  (r2, [Event.lockMutex, Event.unlockMutex, Event.unlockMutex])

/-- From `~resource_handle`: when non-empty, fetch_sub the count; when
the previous value was 1 and the state is loaded, store unloaded and
invoke the unload callback with the object pointer. -/
def drop (h : resource_handle) (r : resource_registry) :
    resource_registry × List Event :=
  match h with
  | none => (r, [])
  | some n =>
    match lookupSlot r n with
    | none => (r, [])
    | some s =>
      let s1 : shared := { s with count := (s.count + 4294967295) % 4294967296 }
      if s.count = 1 ∧ s.state = states.loaded then
        (setSlot r n { s1 with state := states.unloaded },
         [Event.unloadCall n s.object])
      else
        (setSlot r n s1, [])

/-- From the copy constructor of `resource_handle`: copy the slot
reference and fetch_add the count when non-empty. -/
def clone (h : resource_handle) (r : resource_registry) :
    resource_handle × resource_registry :=
  match h with
  | none => (none, r)
  | some n =>
    match lookupSlot r n with
    | none => (some n, r)
    | some s => (some n, setSlot r n { s with count := (s.count + 1) % 4294967296 })

/-- From `resource_handle::good`: `shr->state.load() == states::loaded`.
On an empty handle the source dereferences a null `shr`; that
undefined branch is modelled as `none`. -/
def good (h : resource_handle) (r : resource_registry) : Option Bool :=
  match h with
  | none => none
  | some n => (lookupSlot r n).map (fun s => decide (s.state = states.loaded))

/-- From `resource_handle::operator->`: returns `shr->object`.  On an
empty handle the null dereference is modelled as `none`. -/
def deref (h : resource_handle) (r : resource_registry) : Option (Option Nat) :=
  match h with
  | none => none
  | some n => (lookupSlot r n).map (fun s => s.object)

/-- Locked loop body of `lotus::reload_registry`: for every slot whose
state is loaded, store unloaded, invoke the unload callback, and push
the name onto `to_load`.  Returns the updated slots, the names to
re-request, and the unload events in iteration order. -/
def reloadScan : List (String × shared) →
    List (String × shared) × List String × List Event
  | [] => ([], [], [])
  | (n, s) :: rest =>
    let t := reloadScan rest
    if s.state = states.loaded then
      ((n, { s with state := states.unloaded }) :: t.1,
       n :: t.2.1,
       Event.unloadCall n s.object :: t.2.2)
    else
      ((n, s) :: t.1, t.2.1, t.2.2)

/-- From `lotus::reload_registry`.  The unload loop runs under the
mutex; the guard is then explicitly destroyed, the request callback
is invoked for each cached name, and the guard destructor runs a
second time at scope exit. -/
def reload_registry (r : resource_registry) :
    resource_registry × List Event :=
  let t := reloadScan r.reg
  (⟨t.1⟩,
   Event.lockMutex :: t.2.2 ++
     Event.unlockMutex :: t.2.1.map Event.requestCall ++ [Event.unlockMutex])

/-- Locked loop body of `lotus::unload_registry`: for every slot whose
state is loaded, store unloaded and invoke the unload callback. -/
def unloadScan : List (String × shared) →
    List (String × shared) × List Event
  | [] => ([], [])
  | (n, s) :: rest =>
    let t := unloadScan rest
    if s.state = states.loaded then
      ((n, { s with state := states.unloaded }) :: t.1,
       Event.unloadCall n s.object :: t.2)
    else
      ((n, s) :: t.1, t.2)

/-- From `lotus::unload_registry`.  The whole loop runs under the
mutex; the guard is destroyed once, at scope exit. -/
def unload_registry (r : resource_registry) :
    resource_registry × List Event :=
  let t := unloadScan r.reg
  (⟨t.1⟩, Event.lockMutex :: t.2 ++ [Event.unlockMutex])

/-- Event classifiers. -/
def isRequestEvent : Event → Bool
  | Event.requestCall _ => true
  | _ => false

/-- Classifier for unload callback events. -/
def isUnloadEvent : Event → Bool
  | Event.unloadCall _ _ => true
  | _ => false

/-- Number of lock operations in a trace. -/
def lockCount (evs : List Event) : Nat :=
  evs.countP (fun e => decide (e = Event.lockMutex))

/-- Number of unlock operations in a trace. -/
def unlockCount (evs : List Event) : Nat :=
  evs.countP (fun e => decide (e = Event.unlockMutex))

/-- Number of unload callback invocations attributed to a given slot
name in a trace. -/
def unloadsFor (n : String) (evs : List Event) : Nat :=
  evs.countP (fun e =>
    match e with
    | Event.unloadCall m _ => decide (m = n)
    | _ => false)

/-- Number of request callback invocations for a given name. -/
def requestsFor (n : String) (evs : List Event) : Nat :=
  evs.countP (fun e =>
    match e with
    | Event.requestCall m => decide (m = n)
    | _ => false)

/-- Number of loaded slots of a registry. -/
def loadedCount (r : resource_registry) : Nat :=
  r.reg.countP (fun p => decide (p.2.state = states.loaded))

/-- Annotation of a trace with, for each event, whether the mutex is
held when the event happens: the prefix so far holds strictly more
lock than unlock operations.  The accumulators carry the lock and
unlock operations already seen. -/
def annotate : List Event → Nat → Nat → List (Event × Bool)
  | [], _, _ => []
  | e :: rest, l, u =>
    (e, decide (u < l)) ::
      annotate rest
        (if e = Event.lockMutex then l + 1 else l)
        (if e = Event.unlockMutex then u + 1 else u)

/-- Client operations for whole-trace runs: the public entry points of
the library plus handle clone and drop on a named slot. -/
inductive Op where
  | opGet (n : String)
  | opReg (n : String) (o : Nat)
  | opDrop (n : String)
  | opClone (n : String)
  | opReloadAll
  | opUnloadAll
deriving DecidableEq, Repr

/-- One client operation applied to a registry, with its events. -/
def runOp (r : resource_registry) : Op → resource_registry × List Event
  | Op.opGet n => ((get n r).2.1, (get n r).2.2)
  | Op.opReg n o => reg n o r
  | Op.opDrop n => drop (some n) r
  | Op.opClone n => ((clone (some n) r).2, [])
  | Op.opReloadAll => reload_registry r
  | Op.opUnloadAll => unload_registry r

/-- A sequence of client operations applied left to right, with the
concatenated event trace. -/
def run (r : resource_registry) : List Op → resource_registry × List Event
  | [] => (r, [])
  | op :: ops =>
    let t := runOp r op
    let t2 := run t.1 ops
    (t2.1, t.2 ++ t2.2)

/-- A freshly constructed registry: empty map. -/
def emptyRegistry : resource_registry := ⟨[]⟩

/-- Number of `reg` operations for a given name in an operation list. -/
def regsFor (n : String) : List Op → Nat
  | [] => 0
  | Op.opReg m _ :: ops => (if m = n then 1 else 0) + regsFor n ops
  | _ :: ops => regsFor n ops

/-- Contribution of a loaded slot to the pairing invariant. -/
def loadedFlag (r : resource_registry) (n : String) : Nat :=
  match lookupSlot r n with
  | some s => if s.state = states.loaded then 1 else 0
  | none => 0

/-- Keys of a slot list. -/
def keys (l : List (String × shared)) : List String := l.map (fun p => p.1)

/-- Effect of one bulk pass on a single slot: a loaded slot is moved
to unloaded, any other slot is untouched. -/
def bulkTransform (s : shared) : shared :=
  if s.state = states.loaded then { s with state := states.unloaded } else s

/-- Per-name contribution of a slot list to the pairing invariant. -/
def flagList (l : List (String × shared)) (n : String) : Nat :=
  match lookupSlotList l n with
  | some s => if s.state = states.loaded then 1 else 0
  | none => 0

/-- Truth of the statement that in a trace every unload callback
invocation happens before every request callback invocation. -/
def unloadsBeforeRequests : List Event → Bool
  | [] => true
  | e :: rest =>
    if isRequestEvent e then rest.all (fun x => ! isUnloadEvent x)
    else unloadsBeforeRequests rest

/-! Association list lemmas. -/

theorem lookup_set_of_some {n : String} {s0 s : shared} :
    ∀ {l : List (String × shared)}, lookupSlotList l n = some s0 →
      lookupSlotList (setSlotList l n s) n = some s
  | [], h => by simp [lookupSlotList] at h
  | p :: rest, h => by
    by_cases hp : p.1 = n
    · simp [lookupSlotList, setSlotList, hp]
    · simp only [lookupSlotList, setSlotList, if_neg hp] at h ⊢
      exact lookup_set_of_some h

theorem lookup_set_ne {n m : String} {s : shared} (hnm : m ≠ n) :
    ∀ {l : List (String × shared)},
      lookupSlotList (setSlotList l n s) m = lookupSlotList l m
  | [] => by simp [lookupSlotList, setSlotList]
  | p :: rest => by
    by_cases hp : p.1 = n
    · subst hp
      simp [lookupSlotList, setSlotList, Ne.symm hnm]
    · simp only [setSlotList, if_neg hp, lookupSlotList]
      by_cases hm : p.1 = m
      · simp [hm]
      · simp only [if_neg hm]
        exact lookup_set_ne hnm

theorem set_of_none {n : String} {s : shared} :
    ∀ {l : List (String × shared)}, lookupSlotList l n = none →
      setSlotList l n s = l
  | [], _ => rfl
  | p :: rest, h => by
    by_cases hp : p.1 = n
    · simp [lookupSlotList, hp] at h
    · simp only [lookupSlotList, if_neg hp] at h
      simp only [setSlotList, if_neg hp]
      rw [set_of_none h]

theorem set_self {n : String} :
    ∀ {l : List (String × shared)} {s : shared}, lookupSlotList l n = some s →
      setSlotList l n s = l
  | [], _, h => by simp [lookupSlotList] at h
  | p :: rest, s, h => by
    rcases p with ⟨pn, ps⟩
    by_cases hp : pn = n
    · subst hp
      simp only [lookupSlotList, eq_self_iff_true, if_true, Option.some.injEq] at h
      subst h
      simp [setSlotList]
    · simp only [lookupSlotList, if_neg hp] at h
      simp only [setSlotList, if_neg hp]
      rw [set_self h]

theorem set_set {n : String} {a b : shared} :
    ∀ {l : List (String × shared)},
      setSlotList (setSlotList l n a) n b = setSlotList l n b
  | [] => rfl
  | p :: rest => by
    by_cases hp : p.1 = n
    · simp [setSlotList, hp]
    · simp only [setSlotList, if_neg hp]
      rw [set_set]

theorem lookup_append_some {n : String} {s : shared} {l2 : List (String × shared)} :
    ∀ {l : List (String × shared)}, lookupSlotList l n = some s →
      lookupSlotList (l ++ l2) n = some s
  | [], h => by simp [lookupSlotList] at h
  | p :: rest, h => by
    by_cases hp : p.1 = n
    · simp only [lookupSlotList, if_pos hp] at h
      simp [lookupSlotList, hp, h]
    · simp only [lookupSlotList, if_neg hp] at h
      simp only [List.cons_append, lookupSlotList, if_neg hp]
      exact lookup_append_some h

theorem lookup_append_none {n : String} {s : shared} :
    ∀ {l : List (String × shared)}, lookupSlotList l n = none →
      lookupSlotList (l ++ [(n, s)]) n = some s
  | [], _ => by simp [lookupSlotList]
  | p :: rest, h => by
    by_cases hp : p.1 = n
    · simp [lookupSlotList, hp] at h
    · simp only [lookupSlotList, if_neg hp] at h
      simp only [List.cons_append, lookupSlotList, if_neg hp]
      exact lookup_append_none h

theorem lookup_append_ne {n m : String} {s : shared} (hnm : m ≠ n) :
    ∀ {l : List (String × shared)},
      lookupSlotList (l ++ [(n, s)]) m = lookupSlotList l m
  | [] => by simp [lookupSlotList, Ne.symm hnm]
  | p :: rest => by
    by_cases hp : p.1 = m
    · simp [lookupSlotList, hp]
    · simp only [List.cons_append, lookupSlotList, if_neg hp]
      exact lookup_append_ne hnm

/-! Lemmas about find_or_create_shared, reg and get. -/

theorem lookup_foc_self (r : resource_registry) (n : String) :
    lookupSlot (find_or_create_shared r n) n =
      some ((lookupSlot r n).getD ⟨states.unloaded, 0, none⟩) := by
  unfold find_or_create_shared
  cases h : lookupSlot r n with
  | some s => simp [lookupSlot, h] at h ⊢; exact h
  | none => simp [lookupSlot] at h ⊢; exact lookup_append_none h

theorem lookup_foc_ne (r : resource_registry) (n m : String) (hnm : m ≠ n) :
    lookupSlot (find_or_create_shared r n) m = lookupSlot r m := by
  unfold find_or_create_shared
  cases h : lookupSlot r n with
  | some s => rfl
  | none => exact lookup_append_ne hnm

theorem lookupSlot_set_of_some {r : resource_registry} {n : String} {s0 s : shared}
    (h : lookupSlot r n = some s0) : lookupSlot (setSlot r n s) n = some s :=
  lookup_set_of_some h

theorem lookupSlot_set_ne {r : resource_registry} {n m : String} {s : shared}
    (hnm : m ≠ n) : lookupSlot (setSlot r n s) m = lookupSlot r m :=
  lookup_set_ne hnm

theorem setSlot_self {r : resource_registry} {n : String} {s : shared}
    (h : lookupSlot r n = some s) : setSlot r n s = r := by
  cases r with
  | mk l => exact congrArg resource_registry.mk (set_self h)

theorem reg_lookup_self (r : resource_registry) (n : String) (o : Nat) :
    ∃ c, lookupSlot (reg n o r).1 n = some ⟨states.loaded, c, some o⟩ := by
  refine ⟨((lookupSlot r n).getD ⟨states.unloaded, 0, none⟩).count, ?_⟩
  have h1 := lookup_foc_self r n
  simp only [reg, h1, Option.getD_some]
  exact lookupSlot_set_of_some h1

theorem reg_lookup_ne (r : resource_registry) (n m : String) (o : Nat)
    (hnm : m ≠ n) : lookupSlot (reg n o r).1 m = lookupSlot r m := by
  simp only [reg]
  rw [lookupSlot_set_ne hnm]
  exact lookup_foc_ne r n m hnm

theorem get_handle (n : String) (r : resource_registry) : (get n r).1 = some n := rfl

/-- C1.  Round trip: after `reg(n, o, r)`, a `get(n)` on the resulting
registry returns a handle with `good() = true`, reading through the
handle yields exactly the registered object `o`, and the event trace
of this `get` contains no request callback invocation. -/
theorem C1_register_get_roundtrip (r : resource_registry) (n : String) (o : Nat) :
    good (get n (reg n o r).1).1 (get n (reg n o r).1).2.1 = some true ∧
    deref (get n (reg n o r).1).1 (get n (reg n o r).1).2.1 = some (some o) ∧
    (get n (reg n o r).1).2.2.countP isRequestEvent = 0 := by
  obtain ⟨c, hc⟩ := reg_lookup_self r n o
  have hfoc : find_or_create_shared (reg n o r).1 n = (reg n o r).1 := by
    unfold find_or_create_shared
    rw [hc]
  have hlook :
      lookupSlot (get n (reg n o r).1).2.1 n =
        some ⟨states.loaded, (c + 1) % 4294967296, some o⟩ := by
    simp only [get, hfoc, hc, Option.getD_some]
    exact lookupSlot_set_of_some hc
  refine ⟨?_, ?_, ?_⟩
  · rw [get_handle]
    simp [good, hlook]
  · rw [get_handle]
    simp [deref, hlook]
  · simp only [get, hfoc, hc, Option.getD_some]
    simp [isRequestEvent]

/-! Handle lifecycle claims. -/

theorem setSlot_setSlot {r : resource_registry} {n : String} {a b : shared} :
    setSlot (setSlot r n a) n b = setSlot r n b := by
  cases r with
  | mk l => exact congrArg resource_registry.mk set_set

/-- C2.  Last-drop rule: destroying a handle to slot `n` invokes the
unload callback exactly when the decrement takes the count from 1 to
0 while the state is loaded; that event emits the unload call and
moves the slot to state unloaded with count 0; a drop whose previous
count differs from 1 never invokes the callback. -/
theorem C2_last_drop_rule (r : resource_registry) (n : String) (s : shared)
    (h : lookupSlot r n = some s) :
    ((drop (some n) r).2 ≠ [] ↔ s.count = 1 ∧ s.state = states.loaded) ∧
    (s.count = 1 ∧ s.state = states.loaded →
      (drop (some n) r).2 = [Event.unloadCall n s.object] ∧
      lookupSlot (drop (some n) r).1 n = some ⟨states.unloaded, 0, s.object⟩) ∧
    (s.count ≠ 1 → (drop (some n) r).2 = []) := by
  by_cases hcond : s.count = 1 ∧ s.state = states.loaded
  · have hd : drop (some n) r =
        (setSlot r n ⟨states.unloaded, (s.count + 4294967295) % 4294967296, s.object⟩,
         [Event.unloadCall n s.object]) := by
      simp only [drop, h, if_pos hcond]
    have h0 : (s.count + 4294967295) % 4294967296 = 0 := by
      rw [hcond.1]
    rw [h0] at hd
    refine ⟨?_, fun _ => ⟨by rw [hd], ?_⟩, fun hne => absurd hcond.1 hne⟩
    · rw [hd]
      simp [hcond]
    · rw [hd]
      exact lookupSlot_set_of_some h
  · have hd : drop (some n) r =
        (setSlot r n ⟨s.state, (s.count + 4294967295) % 4294967296, s.object⟩, []) := by
      simp only [drop, h, if_neg hcond]
    refine ⟨?_, fun hc => absurd hc hcond, fun _ => by rw [hd]⟩
    rw [hd]
    simp [hcond]

/-- C9.  Dropping the last handle to a slot that is not loaded only
takes the count to 0: no callback fires and the state and object of
the slot are unchanged; every other slot is untouched. -/
theorem C9_drop_not_loaded (r : resource_registry) (n : String) (s : shared)
    (h : lookupSlot r n = some s) (hc : s.count = 1)
    (hs : s.state ≠ states.loaded) :
    (drop (some n) r).2 = [] ∧
    lookupSlot (drop (some n) r).1 n = some ⟨s.state, 0, s.object⟩ ∧
    ∀ m, m ≠ n → lookupSlot (drop (some n) r).1 m = lookupSlot r m := by
  have hcond : ¬(s.count = 1 ∧ s.state = states.loaded) := fun hx => hs hx.2
  have hd : drop (some n) r =
      (setSlot r n ⟨s.state, (s.count + 4294967295) % 4294967296, s.object⟩, []) := by
    simp only [drop, h, if_neg hcond]
  have h0 : (s.count + 4294967295) % 4294967296 = 0 := by
    rw [hc]
  rw [h0] at hd
  rw [hd]
  exact ⟨rfl, lookupSlot_set_of_some h, fun m hm => lookupSlot_set_ne hm⟩

/-- C6.  On a non-empty handle whose slot exists, `good()` returns
true exactly when the slot state is loaded; on an empty handle the
source dereferences a null pointer, modelled as the undefined result
`none`. -/
theorem C6_good_iff_loaded (r : resource_registry) (n : String) (s : shared)
    (h : lookupSlot r n = some s) :
    (good (some n) r = some true ↔ s.state = states.loaded) ∧
    good none r = none := by
  refine ⟨?_, rfl⟩
  simp [good, h]

/-- C7.  Cloning a live handle and dropping the clone restores the
registry exactly (slot state, count and object all as before the
clone), fires no callback, and leaves the original handle value
intact; the empty-handle case is a complete no-op as well. -/
theorem C7_clone_drop (r : resource_registry) (n : String) (s : shared)
    (h : lookupSlot r n = some s) (h1 : 1 ≤ s.count)
    (h2 : s.count < 4294967295) :
    (clone (some n) r).1 = some n ∧
    drop (clone (some n) r).1 (clone (some n) r).2 = (r, []) ∧
    clone none r = (none, r) ∧
    drop none r = (r, []) := by
  have hmod1 : (s.count + 1) % 4294967296 = s.count + 1 :=
    Nat.mod_eq_of_lt (by omega)
  have hcl : clone (some n) r =
      (some n, setSlot r n ⟨s.state, s.count + 1, s.object⟩) := by
    simp only [clone, h, hmod1]
  have hl2 : lookupSlot (setSlot r n ⟨s.state, s.count + 1, s.object⟩) n =
      some ⟨s.state, s.count + 1, s.object⟩ := lookupSlot_set_of_some h
  have hne : ¬((⟨s.state, s.count + 1, s.object⟩ : shared).count = 1 ∧
      (⟨s.state, s.count + 1, s.object⟩ : shared).state = states.loaded) := by
    intro hx
    have : s.count + 1 = 1 := hx.1
    omega
  have hmod2 : (s.count + 1 + 4294967295) % 4294967296 = s.count := by
    have he : s.count + 1 + 4294967295 = s.count + 4294967296 := by ring
    rw [he, Nat.add_mod_right]
    exact Nat.mod_eq_of_lt (by omega)
  have hdr : drop (some n) (setSlot r n ⟨s.state, s.count + 1, s.object⟩) =
      (setSlot (setSlot r n ⟨s.state, s.count + 1, s.object⟩) n
         ⟨s.state, s.count, s.object⟩, []) := by
    simp only [drop, hl2, if_neg hne, hmod2]
  rw [hcl]
  refine ⟨rfl, ?_, rfl, rfl⟩
  rw [hdr, setSlot_setSlot,
    show (⟨s.state, s.count, s.object⟩ : shared) = s from rfl, setSlot_self h]

/-! Concrete registries used by the witness theorems. -/

/-- Witness registry with a single loaded slot of count 1. -/
def rLoaded : resource_registry := ⟨[("a", ⟨states.loaded, 1, some 3⟩)]⟩

/-- Witness registry with a single waiting slot of count 1. -/
def rWaiting : resource_registry := ⟨[("b", ⟨states.waiting_load, 1, none⟩)]⟩

/-- Witness for C2 at a concrete registry. -/
theorem C2_last_drop_rule_witness :
    (drop (some "a") rLoaded).2 = [Event.unloadCall "a" (some 3)] ∧
    lookupSlot (drop (some "a") rLoaded).1 "a" =
      some ⟨states.unloaded, 0, some 3⟩ :=
  (C2_last_drop_rule rLoaded "a" ⟨states.loaded, 1, some 3⟩ (by decide)).2.1
    ⟨rfl, rfl⟩

/-- Witness for C9 at a concrete registry. -/
theorem C9_drop_not_loaded_witness :
    (drop (some "b") rWaiting).2 = [] ∧
    lookupSlot (drop (some "b") rWaiting).1 "b" =
      some ⟨states.waiting_load, 0, none⟩ ∧
    ∀ m, m ≠ "b" →
      lookupSlot (drop (some "b") rWaiting).1 m = lookupSlot rWaiting m :=
  C9_drop_not_loaded rWaiting "b" ⟨states.waiting_load, 1, none⟩ (by decide) rfl
    (by decide)

/-- Witness for C6 at a concrete registry. -/
theorem C6_good_iff_loaded_witness :
    (good (some "a") rLoaded = some true ↔
      (⟨states.loaded, 1, some 3⟩ : shared).state = states.loaded) ∧
    good none rLoaded = none :=
  C6_good_iff_loaded rLoaded "a" ⟨states.loaded, 1, some 3⟩ (by decide)

/-- Witness for C7 at a concrete registry. -/
theorem C7_clone_drop_witness :
    (clone (some "a") rLoaded).1 = some "a" ∧
    drop (clone (some "a") rLoaded).1 (clone (some "a") rLoaded).2 =
      (rLoaded, []) ∧
    clone none rLoaded = (none, rLoaded) ∧
    drop none rLoaded = (rLoaded, []) :=
  C7_clone_drop rLoaded "a" ⟨states.loaded, 1, some 3⟩ (by decide) (by decide)
    (by decide)

/-! Bulk scan lemmas. -/

theorem unloadScan_lookup (n : String) :
    ∀ l : List (String × shared),
      lookupSlotList (unloadScan l).1 n =
        (lookupSlotList l n).map bulkTransform
  | [] => rfl
  | (m, s) :: rest => by
    by_cases hs : s.state = states.loaded
    · simp only [unloadScan, if_pos hs]
      by_cases hm : m = n
      · simp [lookupSlotList, hm, bulkTransform, hs]
      · simp only [lookupSlotList, if_neg hm]
        exact unloadScan_lookup n rest
    · simp only [unloadScan, if_neg hs]
      by_cases hm : m = n
      · simp [lookupSlotList, hm, bulkTransform, hs]
      · simp only [lookupSlotList, if_neg hm]
        exact unloadScan_lookup n rest

theorem reloadScan_lookup (n : String) :
    ∀ l : List (String × shared),
      lookupSlotList (reloadScan l).1 n =
        (lookupSlotList l n).map bulkTransform
  | [] => rfl
  | (m, s) :: rest => by
    by_cases hs : s.state = states.loaded
    · simp only [reloadScan, if_pos hs]
      by_cases hm : m = n
      · simp [lookupSlotList, hm, bulkTransform, hs]
      · simp only [lookupSlotList, if_neg hm]
        exact reloadScan_lookup n rest
    · simp only [reloadScan, if_neg hs]
      by_cases hm : m = n
      · simp [lookupSlotList, hm, bulkTransform, hs]
      · simp only [lookupSlotList, if_neg hm]
        exact reloadScan_lookup n rest

theorem unloadScan_events_unload :
    ∀ l : List (String × shared), ∀ e ∈ (unloadScan l).2, isUnloadEvent e = true
  | [] => by intro e he; simp [unloadScan] at he
  | (m, s) :: rest => by
    intro e he
    by_cases hs : s.state = states.loaded
    · simp only [unloadScan, if_pos hs, List.mem_cons] at he
      rcases he with he | he
      · rw [he]; rfl
      · exact unloadScan_events_unload rest e he
    · simp only [unloadScan, if_neg hs] at he
      exact unloadScan_events_unload rest e he

theorem reloadScan_events_unload :
    ∀ l : List (String × shared), ∀ e ∈ (reloadScan l).2.2, isUnloadEvent e = true
  | [] => by intro e he; simp [reloadScan] at he
  | (m, s) :: rest => by
    intro e he
    by_cases hs : s.state = states.loaded
    · simp only [reloadScan, if_pos hs, List.mem_cons] at he
      rcases he with he | he
      · rw [he]; rfl
      · exact reloadScan_events_unload rest e he
    · simp only [reloadScan, if_neg hs] at he
      exact reloadScan_events_unload rest e he

theorem unloadScan_events_length :
    ∀ l : List (String × shared),
      (unloadScan l).2.length =
        l.countP (fun p => decide (p.2.state = states.loaded))
  | [] => rfl
  | (m, s) :: rest => by
    by_cases hs : s.state = states.loaded
    · simp only [unloadScan, if_pos hs, List.length_cons, List.countP_cons]
      rw [unloadScan_events_length rest]
      simp [hs]
    · simp only [unloadScan, if_neg hs, List.countP_cons]
      rw [unloadScan_events_length rest]
      simp [hs]

theorem reloadScan_events_length :
    ∀ l : List (String × shared),
      (reloadScan l).2.2.length =
        l.countP (fun p => decide (p.2.state = states.loaded))
  | [] => rfl
  | (m, s) :: rest => by
    by_cases hs : s.state = states.loaded
    · simp only [reloadScan, if_pos hs, List.length_cons, List.countP_cons]
      rw [reloadScan_events_length rest]
      simp [hs]
    · simp only [reloadScan, if_neg hs, List.countP_cons]
      rw [reloadScan_events_length rest]
      simp [hs]

theorem reloadScan_names_length :
    ∀ l : List (String × shared),
      (reloadScan l).2.1.length =
        l.countP (fun p => decide (p.2.state = states.loaded))
  | [] => rfl
  | (m, s) :: rest => by
    by_cases hs : s.state = states.loaded
    · simp only [reloadScan, if_pos hs, List.length_cons, List.countP_cons]
      rw [reloadScan_names_length rest]
      simp [hs]
    · simp only [reloadScan, if_neg hs, List.countP_cons]
      rw [reloadScan_names_length rest]
      simp [hs]

theorem unloadScan_no_loaded :
    ∀ l : List (String × shared),
      (unloadScan l).1.countP (fun p => decide (p.2.state = states.loaded)) = 0
  | [] => rfl
  | (m, s) :: rest => by
    by_cases hs : s.state = states.loaded
    · simp only [unloadScan, if_pos hs, List.countP_cons]
      rw [unloadScan_no_loaded rest]
      simp
    · simp only [unloadScan, if_neg hs, List.countP_cons]
      rw [unloadScan_no_loaded rest]
      simp [hs]

theorem reloadScan_no_loaded :
    ∀ l : List (String × shared),
      (reloadScan l).1.countP (fun p => decide (p.2.state = states.loaded)) = 0
  | [] => rfl
  | (m, s) :: rest => by
    by_cases hs : s.state = states.loaded
    · simp only [reloadScan, if_pos hs, List.countP_cons]
      rw [reloadScan_no_loaded rest]
      simp
    · simp only [reloadScan, if_neg hs, List.countP_cons]
      rw [reloadScan_no_loaded rest]
      simp [hs]

theorem unloadScan_unloadsFor_absent (n : String) :
    ∀ l : List (String × shared), n ∉ keys l → unloadsFor n (unloadScan l).2 = 0
  | [], _ => rfl
  | (m, s) :: rest, hn => by
    have hm : m ≠ n := fun he => hn (by simp [keys, he])
    have hrest : n ∉ keys rest := fun he => hn (by simp [keys] at he ⊢; tauto)
    by_cases hs : s.state = states.loaded
    · simp only [unloadScan, if_pos hs, unloadsFor, List.countP_cons]
      rw [show List.countP _ (unloadScan rest).2 =
        unloadsFor n (unloadScan rest).2 from rfl,
        unloadScan_unloadsFor_absent n rest hrest]
      simp [hm]
    · simp only [unloadScan, if_neg hs]
      exact unloadScan_unloadsFor_absent n rest hrest

theorem reloadScan_unloadsFor_absent (n : String) :
    ∀ l : List (String × shared), n ∉ keys l → unloadsFor n (reloadScan l).2.2 = 0
  | [], _ => rfl
  | (m, s) :: rest, hn => by
    have hm : m ≠ n := fun he => hn (by simp [keys, he])
    have hrest : n ∉ keys rest := fun he => hn (by simp [keys] at he ⊢; tauto)
    by_cases hs : s.state = states.loaded
    · simp only [reloadScan, if_pos hs, unloadsFor, List.countP_cons]
      rw [show List.countP _ (reloadScan rest).2.2 =
        unloadsFor n (reloadScan rest).2.2 from rfl,
        reloadScan_unloadsFor_absent n rest hrest]
      simp [hm]
    · simp only [reloadScan, if_neg hs]
      exact reloadScan_unloadsFor_absent n rest hrest

theorem reloadScan_names_absent (n : String) :
    ∀ l : List (String × shared), n ∉ keys l →
      (reloadScan l).2.1.countP (fun m => decide (m = n)) = 0
  | [], _ => rfl
  | (m, s) :: rest, hn => by
    have hm : m ≠ n := fun he => hn (by simp [keys, he])
    have hrest : n ∉ keys rest := fun he => hn (by simp [keys] at he ⊢; tauto)
    by_cases hs : s.state = states.loaded
    · simp only [reloadScan, if_pos hs, List.countP_cons]
      rw [reloadScan_names_absent n rest hrest]
      simp [hm]
    · simp only [reloadScan, if_neg hs]
      exact reloadScan_names_absent n rest hrest

theorem unloadScan_unloadsFor (n : String) :
    ∀ l : List (String × shared), (keys l).Nodup →
      unloadsFor n (unloadScan l).2 = flagList l n
  | [], _ => rfl
  | (m, s) :: rest, hnd => by
    have hnd2 : (keys rest).Nodup := by
      simp only [keys, List.map_cons, List.nodup_cons] at hnd
      exact hnd.2
    by_cases hm : m = n
    · subst hm
      have habs : m ∉ keys rest := by
        simp only [keys, List.map_cons, List.nodup_cons] at hnd
        exact hnd.1
      by_cases hs : s.state = states.loaded
      · simp only [unloadScan, if_pos hs, unloadsFor, List.countP_cons,
          flagList, lookupSlotList, if_pos rfl]
        rw [show List.countP _ (unloadScan rest).2 =
          unloadsFor m (unloadScan rest).2 from rfl,
          unloadScan_unloadsFor_absent m rest habs]
        simp [hs]
      · simp only [unloadScan, if_neg hs, flagList, lookupSlotList, if_pos rfl]
        rw [show unloadsFor m (unloadScan rest).2 = 0 from
          unloadScan_unloadsFor_absent m rest habs]
        simp [hs]
    · by_cases hs : s.state = states.loaded
      · simp only [unloadScan, if_pos hs, unloadsFor, List.countP_cons,
          flagList, lookupSlotList, if_neg hm]
        rw [show List.countP _ (unloadScan rest).2 =
          unloadsFor n (unloadScan rest).2 from rfl,
          unloadScan_unloadsFor n rest hnd2]
        simp [hm, flagList]
      · simp only [unloadScan, if_neg hs, flagList, lookupSlotList, if_neg hm]
        rw [show unloadsFor n (unloadScan rest).2 = flagList rest n from
          unloadScan_unloadsFor n rest hnd2]
        simp [flagList]

theorem reloadScan_unloadsFor (n : String) :
    ∀ l : List (String × shared), (keys l).Nodup →
      unloadsFor n (reloadScan l).2.2 = flagList l n
  | [], _ => rfl
  | (m, s) :: rest, hnd => by
    have hnd2 : (keys rest).Nodup := by
      simp only [keys, List.map_cons, List.nodup_cons] at hnd
      exact hnd.2
    by_cases hm : m = n
    · subst hm
      have habs : m ∉ keys rest := by
        simp only [keys, List.map_cons, List.nodup_cons] at hnd
        exact hnd.1
      by_cases hs : s.state = states.loaded
      · simp only [reloadScan, if_pos hs, unloadsFor, List.countP_cons,
          flagList, lookupSlotList, if_pos rfl]
        rw [show List.countP _ (reloadScan rest).2.2 =
          unloadsFor m (reloadScan rest).2.2 from rfl,
          reloadScan_unloadsFor_absent m rest habs]
        simp [hs]
      · simp only [reloadScan, if_neg hs, flagList, lookupSlotList, if_pos rfl]
        rw [show unloadsFor m (reloadScan rest).2.2 = 0 from
          reloadScan_unloadsFor_absent m rest habs]
        simp [hs]
    · by_cases hs : s.state = states.loaded
      · simp only [reloadScan, if_pos hs, unloadsFor, List.countP_cons,
          flagList, lookupSlotList, if_neg hm]
        rw [show List.countP _ (reloadScan rest).2.2 =
          unloadsFor n (reloadScan rest).2.2 from rfl,
          reloadScan_unloadsFor n rest hnd2]
        simp [hm, flagList]
      · simp only [reloadScan, if_neg hs, flagList, lookupSlotList, if_neg hm]
        rw [show unloadsFor n (reloadScan rest).2.2 = flagList rest n from
          reloadScan_unloadsFor n rest hnd2]
        simp [flagList]

theorem reloadScan_namesFor (n : String) :
    ∀ l : List (String × shared), (keys l).Nodup →
      (reloadScan l).2.1.countP (fun m => decide (m = n)) = flagList l n
  | [], _ => rfl
  | (m, s) :: rest, hnd => by
    have hnd2 : (keys rest).Nodup := by
      simp only [keys, List.map_cons, List.nodup_cons] at hnd
      exact hnd.2
    by_cases hm : m = n
    · subst hm
      have habs : m ∉ keys rest := by
        simp only [keys, List.map_cons, List.nodup_cons] at hnd
        exact hnd.1
      by_cases hs : s.state = states.loaded
      · simp only [reloadScan, if_pos hs, List.countP_cons,
          flagList, lookupSlotList, if_pos rfl]
        rw [reloadScan_names_absent m rest habs]
        simp [hs]
      · simp only [reloadScan, if_neg hs, flagList, lookupSlotList, if_pos rfl]
        rw [reloadScan_names_absent m rest habs]
        simp [hs]
    · by_cases hs : s.state = states.loaded
      · simp only [reloadScan, if_pos hs, List.countP_cons,
          flagList, lookupSlotList, if_neg hm]
        rw [reloadScan_namesFor n rest hnd2]
        simp [hm, flagList]
      · simp only [reloadScan, if_neg hs, flagList, lookupSlotList, if_neg hm]
        rw [reloadScan_namesFor n rest hnd2]
        simp [flagList]

theorem isRequestEvent_of_unload {e : Event} (h : isUnloadEvent e = true) :
    isRequestEvent e = false := by
  cases e <;> simp [isUnloadEvent, isRequestEvent] at h ⊢

theorem ubr_append_no_request {l2 : List Event} :
    ∀ {l1 : List Event}, (∀ e ∈ l1, isRequestEvent e = false) →
      unloadsBeforeRequests (l1 ++ l2) = unloadsBeforeRequests l2
  | [], _ => rfl
  | e :: rest, h => by
    have he : isRequestEvent e = false := h e (List.mem_cons_self e rest)
    simp only [List.cons_append, unloadsBeforeRequests, he, Bool.false_eq_true,
      if_false]
    exact ubr_append_no_request (fun x hx => h x (List.mem_cons_of_mem _ hx))

theorem ubr_no_unload :
    ∀ {l : List Event}, (∀ e ∈ l, isUnloadEvent e = false) →
      unloadsBeforeRequests l = true
  | [], _ => rfl
  | e :: rest, h => by
    by_cases hr : isRequestEvent e = true
    · simp only [unloadsBeforeRequests, hr, if_true, List.all_eq_true]
      intro x hx
      simp [h x (List.mem_cons_of_mem _ hx)]
    · have hr2 : isRequestEvent e = false := by
        cases hb : isRequestEvent e
        · rfl
        · exact absurd hb hr
      simp only [unloadsBeforeRequests, hr2, Bool.false_eq_true, if_false]
      exact ubr_no_unload (fun x hx => h x (List.mem_cons_of_mem _ hx))

/-- C10.  Bulk operations act only on loaded slots: a slot that is
unloaded or waiting is left entirely unchanged by both
`reload_registry` and `unload_registry`, no unload callback is fired
for it, and `reload_registry` does not re-request it. -/
theorem C10_bulk_skip_not_loaded (r : resource_registry) (n : String) (s : shared)
    (hnd : (keys r.reg).Nodup) (h : lookupSlot r n = some s)
    (hs : s.state ≠ states.loaded) :
    lookupSlot (reload_registry r).1 n = some s ∧
    lookupSlot (unload_registry r).1 n = some s ∧
    unloadsFor n (reload_registry r).2 = 0 ∧
    unloadsFor n (unload_registry r).2 = 0 ∧
    requestsFor n (reload_registry r).2 = 0 := by
  have hbt : bulkTransform s = s := by
    unfold bulkTransform
    rw [if_neg hs]
  have hflag : flagList r.reg n = 0 := by
    unfold flagList
    rw [show lookupSlotList r.reg n = some s from h]
    simp [hs]
  refine ⟨?_, ?_, ?_, ?_, ?_⟩
  · show lookupSlotList (reloadScan r.reg).1 n = some s
    rw [reloadScan_lookup, show lookupSlotList r.reg n = some s from h,
      Option.map_some', hbt]
  · show lookupSlotList (unloadScan r.reg).1 n = some s
    rw [unloadScan_lookup, show lookupSlotList r.reg n = some s from h,
      Option.map_some', hbt]
  · show unloadsFor n (Event.lockMutex :: (reloadScan r.reg).2.2 ++
      Event.unlockMutex :: (reloadScan r.reg).2.1.map Event.requestCall ++
      [Event.unlockMutex]) = 0
    simp only [unloadsFor, List.countP_cons, List.countP_append, List.countP_map]
    rw [show List.countP _ (reloadScan r.reg).2.2 =
      unloadsFor n (reloadScan r.reg).2.2 from rfl,
      reloadScan_unloadsFor n r.reg hnd, hflag]
    simp [Function.comp]
  · show unloadsFor n (Event.lockMutex :: (unloadScan r.reg).2 ++
      [Event.unlockMutex]) = 0
    simp only [unloadsFor, List.countP_cons, List.countP_append]
    rw [show List.countP _ (unloadScan r.reg).2 =
      unloadsFor n (unloadScan r.reg).2 from rfl,
      unloadScan_unloadsFor n r.reg hnd, hflag]
    simp
  · show requestsFor n (Event.lockMutex :: (reloadScan r.reg).2.2 ++
      Event.unlockMutex :: (reloadScan r.reg).2.1.map Event.requestCall ++
      [Event.unlockMutex]) = 0
    simp only [requestsFor, List.countP_cons, List.countP_append, List.countP_map]
    have hz : List.countP
        ((fun e => match e with
          | Event.requestCall m => decide (m = n)
          | _ => false) ∘ Event.requestCall) (reloadScan r.reg).2.1 = 0 := by
      rw [show ((fun e => match e with
          | Event.requestCall m => decide (m = n)
          | _ => false) ∘ Event.requestCall) =
        (fun m => decide (m = n)) from rfl, reloadScan_namesFor n r.reg hnd, hflag]
    rw [hz]
    have hz2 : List.countP (fun e => match e with
        | Event.requestCall m => decide (m = n)
        | _ => false) (reloadScan r.reg).2.2 = 0 := by
      rw [List.countP_eq_zero]
      intro e he
      have := reloadScan_events_unload r.reg e he
      cases e <;> simp_all [isUnloadEvent]
    rw [hz2]
    simp

/-- Witness for C10 at a concrete registry holding one waiting slot. -/
theorem C10_bulk_skip_not_loaded_witness :
    lookupSlot (reload_registry rWaiting).1 "b" =
      some ⟨states.waiting_load, 1, none⟩ ∧
    lookupSlot (unload_registry rWaiting).1 "b" =
      some ⟨states.waiting_load, 1, none⟩ ∧
    unloadsFor "b" (reload_registry rWaiting).2 = 0 ∧
    unloadsFor "b" (unload_registry rWaiting).2 = 0 ∧
    requestsFor "b" (reload_registry rWaiting).2 = 0 :=
  C10_bulk_skip_not_loaded rWaiting "b" ⟨states.waiting_load, 1, none⟩
    (by decide) (by decide) (by decide)

/-- C4.  One call to `reload_registry` on a registry with K loaded
slots fires exactly K unload callbacks and exactly K request
callbacks, every unload before every request, and every loaded slot
has been moved to the unloaded state in the registry that is current
during the request phase. -/
theorem C4_reload_counts (r : resource_registry) :
    (reload_registry r).2.countP isUnloadEvent = loadedCount r ∧
    (reload_registry r).2.countP isRequestEvent = loadedCount r ∧
    unloadsBeforeRequests (reload_registry r).2 = true ∧
    loadedCount (reload_registry r).1 = 0 ∧
    ∀ n s, lookupSlot r n = some s → s.state = states.loaded →
      lookupSlot (reload_registry r).1 n =
        some ⟨states.unloaded, s.count, s.object⟩ := by
  have htrace : (reload_registry r).2 =
      Event.lockMutex :: (reloadScan r.reg).2.2 ++
        Event.unlockMutex :: (reloadScan r.reg).2.1.map Event.requestCall ++
        [Event.unlockMutex] := rfl
  refine ⟨?_, ?_, ?_, ?_, ?_⟩
  · rw [htrace]
    simp only [List.countP_cons, List.countP_append, List.countP_map]
    have h1 : List.countP isUnloadEvent (reloadScan r.reg).2.2 =
        (reloadScan r.reg).2.2.length :=
      List.countP_eq_length.2 (reloadScan_events_unload r.reg)
    have h2 : List.countP (isUnloadEvent ∘ Event.requestCall)
        (reloadScan r.reg).2.1 = 0 :=
      List.countP_eq_zero.2 (fun a _ => by simp [isUnloadEvent, Function.comp])
    rw [h1, h2, reloadScan_events_length]
    simp [isUnloadEvent, loadedCount]
  · rw [htrace]
    simp only [List.countP_cons, List.countP_append, List.countP_map]
    have h1 : List.countP isRequestEvent (reloadScan r.reg).2.2 = 0 :=
      List.countP_eq_zero.2 (fun a ha => by
        simp [isRequestEvent_of_unload (reloadScan_events_unload r.reg a ha)])
    have h2 : List.countP (isRequestEvent ∘ Event.requestCall)
        (reloadScan r.reg).2.1 = (reloadScan r.reg).2.1.length :=
      List.countP_eq_length.2 (fun a _ => by simp [isRequestEvent, Function.comp])
    rw [h1, h2, reloadScan_names_length]
    simp [isRequestEvent, loadedCount]
  · rw [htrace, List.append_assoc]
    have hstep : unloadsBeforeRequests
        ((Event.lockMutex :: (reloadScan r.reg).2.2) ++
          ((Event.unlockMutex :: (reloadScan r.reg).2.1.map Event.requestCall) ++
            [Event.unlockMutex])) =
        unloadsBeforeRequests
          ((Event.unlockMutex :: (reloadScan r.reg).2.1.map Event.requestCall) ++
            [Event.unlockMutex]) := by
      refine ubr_append_no_request ?_
      intro e he
      rcases List.mem_cons.1 he with he | he
      · rw [he]; rfl
      · exact isRequestEvent_of_unload (reloadScan_events_unload r.reg e he)
    rw [hstep]
    refine ubr_no_unload ?_
    intro e he
    rcases List.mem_append.1 he with he | he
    rcases List.mem_cons.1 he with he | he
    · rw [he]; rfl
    · rcases List.mem_map.1 he with ⟨m, _, hm⟩
      rw [← hm]; rfl
    · rcases List.mem_singleton.1 he with he
      rw [he]; rfl
  · exact reloadScan_no_loaded r.reg
  · intro n s h hload
    show lookupSlotList (reloadScan r.reg).1 n = _
    rw [reloadScan_lookup, show lookupSlotList r.reg n = some s from h,
      Option.map_some']
    unfold bulkTransform
    rw [if_pos hload]

/-- Witness for C4 at a concrete registry with one loaded slot. -/
theorem C4_reload_counts_witness :
    lookupSlot (reload_registry rLoaded).1 "a" =
      some ⟨states.unloaded, 1, some 3⟩ :=
  (C4_reload_counts rLoaded).2.2.2.2 "a" ⟨states.loaded, 1, some 3⟩
    (by decide) rfl

/-! Mutex discipline: annotate lemmas, C5 and C8. -/

theorem annotate_append_no_mutex {l2 : List Event} :
    ∀ {l1 : List Event} {a b : Nat},
      (∀ e ∈ l1, e ≠ Event.lockMutex ∧ e ≠ Event.unlockMutex) →
      annotate (l1 ++ l2) a b =
        l1.map (fun e => (e, decide (b < a))) ++ annotate l2 a b
  | [], _, _, _ => rfl
  | e :: rest, a, b, h => by
    have he := h e (List.mem_cons_self e rest)
    simp only [List.cons_append, annotate, if_neg he.1, if_neg he.2, List.map_cons]
    exact congrArg (fun t => (e, decide (b < a)) :: t)
      (annotate_append_no_mutex (fun x hx => h x (List.mem_cons_of_mem _ hx)))

theorem unload_events_not_mutex {l : List Event}
    (h : ∀ e ∈ l, isUnloadEvent e = true) :
    ∀ e ∈ l, e ≠ Event.lockMutex ∧ e ≠ Event.unlockMutex := by
  intro e he
  have := h e he
  cases e <;> simp_all [isUnloadEvent]

theorem request_map_not_mutex (l : List String) :
    ∀ e ∈ l.map Event.requestCall,
      e ≠ Event.lockMutex ∧ e ≠ Event.unlockMutex := by
  intro e he
  rcases List.mem_map.1 he with ⟨m, _, hm⟩
  rw [← hm]
  exact ⟨fun hx => Event.noConfusion hx, fun hx => Event.noConfusion hx⟩

theorem annotate_reload (r : resource_registry) :
    annotate (reload_registry r).2 0 0 =
      (Event.lockMutex, false) ::
        ((reloadScan r.reg).2.2.map (fun e => (e, true)) ++
          ((Event.unlockMutex, true) ::
            ((reloadScan r.reg).2.1.map
              (fun m => (Event.requestCall m, false)) ++
              [(Event.unlockMutex, false)]))) := by
  have htr : (reload_registry r).2 =
      (Event.lockMutex :: (reloadScan r.reg).2.2) ++
        ((Event.unlockMutex :: (reloadScan r.reg).2.1.map Event.requestCall) ++
          [Event.unlockMutex]) := by
    show (Event.lockMutex :: (reloadScan r.reg).2.2 ++
        Event.unlockMutex :: (reloadScan r.reg).2.1.map Event.requestCall ++
        [Event.unlockMutex]) = _
    rw [List.append_assoc]
  rw [htr, List.cons_append, annotate]
  simp only [reduceIte]
  rw [annotate_append_no_mutex
    (unload_events_not_mutex (reloadScan_events_unload r.reg))]
  rw [List.cons_append, annotate]
  simp only [reduceIte]
  rw [annotate_append_no_mutex (request_map_not_mutex (reloadScan r.reg).2.1)]
  simp [annotate, List.map_map, Function.comp]

theorem annotate_unload (r : resource_registry) :
    annotate (unload_registry r).2 0 0 =
      (Event.lockMutex, false) ::
        ((unloadScan r.reg).2.map (fun e => (e, true)) ++
          [(Event.unlockMutex, true)]) := by
  have htr : (unload_registry r).2 =
      (Event.lockMutex :: (unloadScan r.reg).2) ++ [Event.unlockMutex] := rfl
  rw [htr, List.cons_append, annotate]
  simp only [reduceIte]
  rw [annotate_append_no_mutex
    (unload_events_not_mutex (unloadScan_events_unload r.reg))]
  simp [annotate]

/-- C5 counterexample: on a registry with one loaded slot,
`unload_registry` invokes the unload callback while the registry
mutex is held, so the claim that the mutex is never held across any
callback invocation is false. -/
theorem C5_counterexample :
    ((annotate (unload_registry rLoaded).2 0 0).any
      (fun p => (isRequestEvent p.1 || isUnloadEvent p.1) && p.2)) = true := by
  decide

/-- C5 (amended).  The registry mutex is never held across a request
callback invocation in `get`, `reg`, `reload_registry` or
`unload_registry` (and `reg` invokes no callback at all), but the
unload callback invocations performed by `reload_registry` and
`unload_registry` all happen while the mutex is held. -/
theorem C5_mutex_callback_discipline (r : resource_registry) (n : String) (o : Nat) :
    ((annotate (get n r).2.2 0 0).all
      (fun p => !(isRequestEvent p.1 && p.2))) = true ∧
    ((reg n o r).2.all (fun e => !(isRequestEvent e || isUnloadEvent e))) = true ∧
    ((annotate (reload_registry r).2 0 0).all
      (fun p => (!(isRequestEvent p.1 && p.2)) &&
        (!(isUnloadEvent p.1 && !p.2)))) = true ∧
    ((annotate (unload_registry r).2 0 0).all
      (fun p => !(isUnloadEvent p.1 && !p.2))) = true := by
  refine ⟨?_, ?_, ?_, ?_⟩
  · by_cases hc : ((lookupSlot (find_or_create_shared r n) n).getD
        ⟨states.unloaded, 0, none⟩).state = states.unloaded
    · simp [get, hc, annotate, isRequestEvent, isUnloadEvent]
    · simp [get, hc, annotate, isRequestEvent, isUnloadEvent]
  · simp [reg, isRequestEvent, isUnloadEvent]
  · rw [annotate_reload]
    refine List.all_eq_true.2 ?_
    intro p hp
    rcases List.mem_cons.1 hp with hp | hp
    · subst hp; rfl
    rcases List.mem_append.1 hp with hp | hp
    · rcases List.mem_map.1 hp with ⟨e, he, hpe⟩
      subst hpe
      have hu := reloadScan_events_unload r.reg e he
      simp [isRequestEvent_of_unload hu, hu]
    rcases List.mem_cons.1 hp with hp | hp
    · subst hp; rfl
    rcases List.mem_append.1 hp with hp | hp
    · rcases List.mem_map.1 hp with ⟨m, hm, hpm⟩
      subst hpm
      simp [isRequestEvent, isUnloadEvent]
    · rcases List.mem_singleton.1 hp with hp
      subst hp; rfl
  · rw [annotate_unload]
    refine List.all_eq_true.2 ?_
    intro p hp
    rcases List.mem_cons.1 hp with hp | hp
    · subst hp; rfl
    rcases List.mem_append.1 hp with hp | hp
    · rcases List.mem_map.1 hp with ⟨e, he, hpe⟩
      subst hpe
      simp [unloadScan_events_unload r.reg e he]
    · rcases List.mem_singleton.1 hp with hp
      subst hp; rfl

/-- C8.  Bug evidence for the lock discipline: each of `get`, `reg`
and `reload_registry` constructs one `lock_guard` but destroys it
twice (once by the explicit `lock.~lock_guard()` call and once at
scope exit), so each such call performs one lock and two unlock
operations on the registry mutex instead of the intended balanced
one lock and one unlock. -/
theorem C8_unbalanced_unlock (r : resource_registry) (n : String) (o : Nat) :
    lockCount (get n r).2.2 = 1 ∧ unlockCount (get n r).2.2 = 2 ∧
    lockCount (reg n o r).2 = 1 ∧ unlockCount (reg n o r).2 = 2 ∧
    lockCount (reload_registry r).2 = 1 ∧
    unlockCount (reload_registry r).2 = 2 := by
  have hU0 : ∀ p : Event → Bool, (∀ e, isUnloadEvent e = true → p e = false) →
      List.countP p (reloadScan r.reg).2.2 = 0 := by
    intro p hp
    exact List.countP_eq_zero.2
      (fun e he => by simp [hp e (reloadScan_events_unload r.reg e he)])
  refine ⟨?_, ?_, ?_, ?_, ?_, ?_⟩
  · by_cases hc : ((lookupSlot (find_or_create_shared r n) n).getD
        ⟨states.unloaded, 0, none⟩).state = states.unloaded
    · simp [get, hc, lockCount]
    · simp [get, hc, lockCount]
  · by_cases hc : ((lookupSlot (find_or_create_shared r n) n).getD
        ⟨states.unloaded, 0, none⟩).state = states.unloaded
    · simp [get, hc, unlockCount]
    · simp [get, hc, unlockCount]
  · simp [reg, lockCount]
  · simp [reg, unlockCount]
  · show lockCount (Event.lockMutex :: (reloadScan r.reg).2.2 ++
      Event.unlockMutex :: (reloadScan r.reg).2.1.map Event.requestCall ++
      [Event.unlockMutex]) = 1
    simp only [lockCount, List.countP_cons, List.countP_append, List.countP_map]
    rw [hU0 _ (fun e he => by cases e <;> simp_all [isUnloadEvent])]
    rw [List.countP_eq_zero.2 (fun a _ => by simp [Function.comp])]
    simp
  · show unlockCount (Event.lockMutex :: (reloadScan r.reg).2.2 ++
      Event.unlockMutex :: (reloadScan r.reg).2.1.map Event.requestCall ++
      [Event.unlockMutex]) = 2
    simp only [unlockCount, List.countP_cons, List.countP_append, List.countP_map]
    rw [hU0 _ (fun e he => by cases e <;> simp_all [isUnloadEvent])]
    rw [List.countP_eq_zero.2 (fun a _ => by simp [Function.comp])]
    simp

/-! Key preservation and Nodup invariance for the C3 induction. -/

theorem keys_set (n : String) (s : shared) (l : List (String × shared)) :
    keys (setSlotList l n s) = keys l := by
  induction l with
  | nil => rfl
  | cons p rest ih =>
    by_cases hp : p.1 = n
    · simp [setSlotList, hp, keys]
    · simp only [setSlotList, if_neg hp, keys, List.map_cons] at ih ⊢
      rw [ih]

theorem keys_setSlot (r : resource_registry) (n : String) (s : shared) :
    keys (setSlot r n s).reg = keys r.reg :=
  keys_set n s r.reg

theorem keys_unloadScan (l : List (String × shared)) :
    keys (unloadScan l).1 = keys l := by
  induction l with
  | nil => rfl
  | cons p rest ih =>
    rcases p with ⟨m, s⟩
    by_cases hs : s.state = states.loaded
    · simp only [unloadScan, if_pos hs, keys, List.map_cons] at ih ⊢
      rw [ih]
    · simp only [unloadScan, if_neg hs, keys, List.map_cons] at ih ⊢
      rw [ih]

theorem keys_reloadScan (l : List (String × shared)) :
    keys (reloadScan l).1 = keys l := by
  induction l with
  | nil => rfl
  | cons p rest ih =>
    rcases p with ⟨m, s⟩
    by_cases hs : s.state = states.loaded
    · simp only [reloadScan, if_pos hs, keys, List.map_cons] at ih ⊢
      rw [ih]
    · simp only [reloadScan, if_neg hs, keys, List.map_cons] at ih ⊢
      rw [ih]

theorem lookup_none_iff (n : String) :
    ∀ l : List (String × shared), lookupSlotList l n = none ↔ n ∉ keys l
  | [] => by simp [lookupSlotList, keys]
  | p :: rest => by
    by_cases hp : p.1 = n
    · simp [lookupSlotList, hp, keys]
    · simp only [lookupSlotList, if_neg hp, keys, List.map_cons, List.mem_cons]
      rw [lookup_none_iff n rest]
      constructor
      · intro h hx
        rcases hx with hx | hx
        · exact hp hx.symm
        · exact h hx
      · intro h hx
        exact h (Or.inr hx)

theorem keys_foc_nodup {r : resource_registry} {n : String}
    (hnd : (keys r.reg).Nodup) :
    (keys (find_or_create_shared r n).reg).Nodup := by
  unfold find_or_create_shared
  cases h : lookupSlot r n with
  | some s => exact hnd
  | none =>
    have hn : n ∉ keys r.reg := (lookup_none_iff n r.reg).1 h
    show (keys (r.reg ++ [(n, ⟨states.unloaded, 0, none⟩)])).Nodup
    have hk : keys (r.reg ++ [(n, ⟨states.unloaded, 0, none⟩)]) =
        keys r.reg ++ [n] := by
      simp [keys]
    rw [hk]
    refine List.Nodup.append hnd (List.nodup_singleton n) ?_
    intro a ha hb
    rw [List.mem_singleton] at hb
    subst hb
    exact hn ha

theorem runOp_nodup {r : resource_registry} {op : Op}
    (hnd : (keys r.reg).Nodup) : (keys (runOp r op).1.reg).Nodup := by
  cases op with
  | opGet m =>
    show (keys (setSlot (find_or_create_shared r m) m _).reg).Nodup
    rw [keys_setSlot]
    exact keys_foc_nodup hnd
  | opReg m o =>
    show (keys (setSlot (find_or_create_shared r m) m _).reg).Nodup
    rw [keys_setSlot]
    exact keys_foc_nodup hnd
  | opDrop m =>
    show (keys (drop (some m) r).1.reg).Nodup
    cases h : lookupSlot r m with
    | none => simp only [drop, h]; exact hnd
    | some s =>
      by_cases hc : s.count = 1 ∧ s.state = states.loaded
      · simp only [drop, h, if_pos hc, keys_setSlot]; exact hnd
      · simp only [drop, h, if_neg hc, keys_setSlot]; exact hnd
  | opClone m =>
    show (keys (clone (some m) r).2.reg).Nodup
    cases h : lookupSlot r m with
    | none => simp only [clone, h]; exact hnd
    | some s => simp only [clone, h, keys_setSlot]; exact hnd
  | opReloadAll =>
    show (keys (reloadScan r.reg).1).Nodup
    rw [keys_reloadScan]
    exact hnd
  | opUnloadAll =>
    show (keys (unloadScan r.reg).1).Nodup
    rw [keys_unloadScan]
    exact hnd

/-! Per-operation bounds for the pairing invariant. -/

theorem loadedFlag_eq_flagList (r : resource_registry) (n : String) :
    loadedFlag r n = flagList r.reg n := rfl

theorem flag_unloadScan (l : List (String × shared)) (n : String) :
    flagList (unloadScan l).1 n = 0 := by
  unfold flagList
  rw [unloadScan_lookup]
  cases h : lookupSlotList l n with
  | none => rfl
  | some s =>
    simp only [Option.map_some']
    unfold bulkTransform
    by_cases hs : s.state = states.loaded
    · rw [if_pos hs]
      simp
    · rw [if_neg hs]
      simp [hs]

theorem flag_reloadScan (l : List (String × shared)) (n : String) :
    flagList (reloadScan l).1 n = 0 := by
  unfold flagList
  rw [reloadScan_lookup]
  cases h : lookupSlotList l n with
  | none => rfl
  | some s =>
    simp only [Option.map_some']
    unfold bulkTransform
    by_cases hs : s.state = states.loaded
    · rw [if_pos hs]
      simp
    · rw [if_neg hs]
      simp [hs]

theorem unloadsFor_unload (r : resource_registry) (n : String)
    (hnd : (keys r.reg).Nodup) :
    unloadsFor n (unload_registry r).2 = flagList r.reg n := by
  show unloadsFor n
    (Event.lockMutex :: (unloadScan r.reg).2 ++ [Event.unlockMutex]) = _
  simp only [unloadsFor, List.countP_cons, List.countP_append]
  rw [show List.countP _ (unloadScan r.reg).2 =
    unloadsFor n (unloadScan r.reg).2 from rfl,
    unloadScan_unloadsFor n r.reg hnd]
  simp

theorem unloadsFor_reload (r : resource_registry) (n : String)
    (hnd : (keys r.reg).Nodup) :
    unloadsFor n (reload_registry r).2 = flagList r.reg n := by
  show unloadsFor n
    (Event.lockMutex :: (reloadScan r.reg).2.2 ++
      Event.unlockMutex :: (reloadScan r.reg).2.1.map Event.requestCall ++
      [Event.unlockMutex]) = _
  simp only [unloadsFor, List.countP_cons, List.countP_append, List.countP_map]
  rw [show List.countP _ (reloadScan r.reg).2.2 =
    unloadsFor n (reloadScan r.reg).2.2 from rfl,
    reloadScan_unloadsFor n r.reg hnd]
  rw [List.countP_eq_zero.2 (fun a _ => by simp [Function.comp])]
  simp

theorem loadedFlag_set_same_state (r : resource_registry) (m : String)
    (s : shared) (h : lookupSlot r m = some s) (c : Nat) (n : String) :
    loadedFlag (setSlot r m ⟨s.state, c, s.object⟩) n = loadedFlag r n := by
  by_cases hm : n = m
  · subst hm
    unfold loadedFlag
    rw [lookupSlot_set_of_some h, h]
  · unfold loadedFlag
    rw [lookupSlot_set_ne hm]

theorem loadedFlag_get (m : String) (r : resource_registry) (n : String) :
    loadedFlag (get m r).2.1 n = loadedFlag r n := by
  have hfs := lookup_foc_self r m
  by_cases hm : n = m
  · subst hm
    have hset : lookupSlot (get n r).2.1 n =
        some { ((lookupSlot r n).getD ⟨states.unloaded, 0, none⟩) with
          count := (((lookupSlot r n).getD
            ⟨states.unloaded, 0, none⟩).count + 1) % 4294967296 } := by
      simp only [get, hfs, Option.getD_some]
      exact lookupSlot_set_of_some hfs
    unfold loadedFlag
    rw [hset]
    cases h : lookupSlot r n with
    | some s => simp
    | none => simp
  · unfold loadedFlag
    have heq : lookupSlot (get m r).2.1 n = lookupSlot r n := by
      simp only [get]
      rw [lookupSlot_set_ne hm, lookup_foc_ne r m n hm]
    rw [heq]

theorem unloadsFor_get (n m : String) (r : resource_registry) :
    unloadsFor n (get m r).2.2 = 0 := by
  by_cases hc : ((lookupSlot (find_or_create_shared r m) m).getD
      ⟨states.unloaded, 0, none⟩).state = states.unloaded
  · simp [get, hc, unloadsFor]
  · simp [get, hc, unloadsFor]

/-- Number of successful `reg` calls for a name contributed by one
operation. -/
def regDelta (n : String) : Op → Nat
  | Op.opReg m _ => if m = n then 1 else 0
  | _ => 0

theorem regsFor_cons (n : String) (op : Op) (ops : List Op) :
    regsFor n (op :: ops) = regDelta n op + regsFor n ops := by
  cases op <;> simp [regsFor, regDelta]

theorem step_bound (n : String) (r : resource_registry) (op : Op)
    (hnd : (keys r.reg).Nodup) :
    unloadsFor n (runOp r op).2 + loadedFlag (runOp r op).1 n ≤
      regDelta n op + loadedFlag r n := by
  cases op with
  | opGet m =>
    show unloadsFor n (get m r).2.2 + loadedFlag (get m r).2.1 n ≤
      regDelta n (Op.opGet m) + loadedFlag r n
    rw [unloadsFor_get n m r, loadedFlag_get m r n]
    simp [regDelta]
  | opReg m o =>
    show unloadsFor n (reg m o r).2 + loadedFlag (reg m o r).1 n ≤
      regDelta n (Op.opReg m o) + loadedFlag r n
    have hev : unloadsFor n (reg m o r).2 = 0 := by
      simp [reg, unloadsFor]
    rw [hev]
    by_cases hm : n = m
    · subst hm
      obtain ⟨c, hc⟩ := reg_lookup_self r n o
      have hfl : loadedFlag (reg n o r).1 n = 1 := by
        unfold loadedFlag
        rw [hc]
        simp
      have hrd : regDelta n (Op.opReg n o) = 1 := by
        simp [regDelta]
      rw [hfl, hrd]
      omega
    · have hfl : loadedFlag (reg m o r).1 n = loadedFlag r n := by
        unfold loadedFlag
        rw [reg_lookup_ne r m n o hm]
      have hrd : regDelta n (Op.opReg m o) = 0 := by
        simp only [regDelta]
        rw [if_neg (fun he => hm (he.symm))]
      rw [hfl, hrd]
  | opDrop m =>
    show unloadsFor n (drop (some m) r).2 + loadedFlag (drop (some m) r).1 n ≤
      regDelta n (Op.opDrop m) + loadedFlag r n
    have hrd : regDelta n (Op.opDrop m) = 0 := rfl
    rw [hrd]
    cases h : lookupSlot r m with
    | none =>
      simp only [drop, h]
      simp [unloadsFor]
    | some s =>
      by_cases hc : s.count = 1 ∧ s.state = states.loaded
      · simp only [drop, h, if_pos hc]
        by_cases hm : n = m
        · subst hm
          have hun : unloadsFor n [Event.unloadCall n s.object] = 1 := by
            simp [unloadsFor]
          have hfa : loadedFlag (setSlot r n
              ⟨states.unloaded, (s.count + 4294967295) % 4294967296, s.object⟩)
              n = 0 := by
            unfold loadedFlag
            rw [lookupSlot_set_of_some h]
            simp
          have hfb : loadedFlag r n = 1 := by
            unfold loadedFlag
            rw [h]
            simp [hc.2]
          rw [hun, hfa, hfb]
        · have hun : unloadsFor n [Event.unloadCall m s.object] = 0 := by
            simp [unloadsFor, Ne.symm hm]
          have hfa : loadedFlag (setSlot r m
              ⟨states.unloaded, (s.count + 4294967295) % 4294967296, s.object⟩)
              n = loadedFlag r n := by
            unfold loadedFlag
            rw [lookupSlot_set_ne hm]
          rw [hun, hfa]
      · simp only [drop, h, if_neg hc]
        rw [loadedFlag_set_same_state r m s h _ n]
        simp [unloadsFor]
  | opClone m =>
    show unloadsFor n [] + loadedFlag (clone (some m) r).2 n ≤
      regDelta n (Op.opClone m) + loadedFlag r n
    cases h : lookupSlot r m with
    | none =>
      simp only [clone, h]
      simp [unloadsFor, regDelta]
    | some s =>
      simp only [clone, h]
      rw [loadedFlag_set_same_state r m s h _ n]
      simp [unloadsFor, regDelta]
  | opReloadAll =>
    show unloadsFor n (reload_registry r).2 +
      loadedFlag (reload_registry r).1 n ≤
      regDelta n Op.opReloadAll + loadedFlag r n
    rw [unloadsFor_reload r n hnd]
    have hfa : loadedFlag (reload_registry r).1 n = 0 := flag_reloadScan r.reg n
    rw [hfa, loadedFlag_eq_flagList]
    simp [regDelta]
  | opUnloadAll =>
    show unloadsFor n (unload_registry r).2 +
      loadedFlag (unload_registry r).1 n ≤
      regDelta n Op.opUnloadAll + loadedFlag r n
    rw [unloadsFor_unload r n hnd]
    have hfa : loadedFlag (unload_registry r).1 n = 0 := flag_unloadScan r.reg n
    rw [hfa, loadedFlag_eq_flagList]
    simp [regDelta]

theorem run_bound (n : String) :
    ∀ (ops : List Op) (r : resource_registry), (keys r.reg).Nodup →
      unloadsFor n (run r ops).2 + loadedFlag (run r ops).1 n ≤
        regsFor n ops + loadedFlag r n
  | [], r, _ => by
    simp [run, unloadsFor, regsFor]
  | op :: ops, r, hnd => by
    have h1 := step_bound n r op hnd
    have h2 := run_bound n ops (runOp r op).1 (runOp_nodup hnd)
    show unloadsFor n ((runOp r op).2 ++ (run (runOp r op).1 ops).2) +
      loadedFlag (run (runOp r op).1 ops).1 n ≤
      regsFor n (op :: ops) + loadedFlag r n
    have hcp : unloadsFor n ((runOp r op).2 ++ (run (runOp r op).1 ops).2) =
        unloadsFor n (runOp r op).2 +
          unloadsFor n (run (runOp r op).1 ops).2 := by
      simp [unloadsFor]
    rw [hcp, regsFor_cons]
    omega

/-- C3 counterexample: the client trace consisting of the single
operation `reg("a", 5)` registers the resource successfully and then
destroys the registry; no unload callback ever fires (the registry
has no destructor that unloads), so it is not the case that exactly
one `unload_cb` fires before destruction. -/
theorem C3_counterexample :
    unloadsFor "a" (run emptyRegistry [Op.opReg "a" 5]).2 = 0 ∧
    unloadsFor "a" (run emptyRegistry [Op.opReg "a" 5]).2 ≠ 1 := by
  constructor
  · rfl
  · intro h
    simp [run, runOp, reg, emptyRegistry, unloadsFor, find_or_create_shared,
      lookupSlot, lookupSlotList, setSlot, setSlotList] at h

/-- C3 (amended).  At most one unload per registration: over any
client trace starting from a fresh registry, the number of unload
callback invocations for a slot never exceeds the number of `reg`
calls for that name.  In particular, in the concrete scenario of the
claim (load "a", hold one handle, `unload_all`, drop the handle)
exactly one unload callback fires: the drop after `unload_all` does
not fire a second one. -/
theorem C3_unload_pairing :
    (∀ (ops : List Op) (n : String),
      unloadsFor n (run emptyRegistry ops).2 ≤ regsFor n ops) ∧
    unloadsFor "a" (run emptyRegistry
      [Op.opReg "a" 0, Op.opGet "a", Op.opUnloadAll, Op.opDrop "a"]).2 = 1 := by
  constructor
  · intro ops n
    have h := run_bound n ops emptyRegistry List.nodup_nil
    have h0 : loadedFlag emptyRegistry n = 0 := rfl
    omega
  · decide

end Lotus
